import Mathlib

/-!
Verification of the gp_election_db normalization-and-temporal-store engine.

The Python scripts (`import_elections.py`, `import_geometries.py`,
`create_precinct_id.py`, `check_geojson_dups.py`) are shallowly embedded
below.  Python strings are modelled as `List Char`; dataframe cells as the
`Cell` inductive; dataframes as column-name lists plus rows of cells; the
DuckDB stores as explicit Lean state that the embedded operations transform.
-/

namespace GPElection

/-- A Python string, modelled as its list of characters. -/
abbrev Chars := List Char

/-- Characters of a Lean string literal (used to embed Python string literals). -/
def pstr (s : String) : Chars := s.data

/-- Fuel-driven digit expansion; the fuel only bounds the recursion depth and
is irrelevant once it is at least the argument. -/
def natCharsAux : Nat → Nat → Chars
  | 0, n => [Nat.digitChar n]
  | fuel + 1, n =>
    if n < 10 then [Nat.digitChar n]
    else natCharsAux fuel (n / 10) ++ [Nat.digitChar (n % 10)]

/-- Decimal digit characters of a natural number, most significant first:
the embedding of Python `str(n)` for `n ≥ 0`. -/
def natChars (n : Nat) : Chars := natCharsAux n n

/-- Python `str.zfill(w)` on an unsigned string: left-pad with `'0'` to width `w`. -/
def zfill (w : Nat) (s : Chars) : Chars :=
  List.replicate (w - s.length) '0' ++ s

/-- Decimal read-back of a digit string (how a downstream join or cast would
interpret the padded identifier, tolerating leading zeros). -/
def parseNat (s : Chars) : Nat :=
  s.foldl (fun a c => 10 * a + (c.toNat - 48)) 0

/-- The canonical precinct identifier: ward zero-padded to 2 digits followed by
precinct zero-padded to 3 digits (`create_precinct_id.py` lines 53-62,
`import_geometries.py` lines 49-51). -/
def canonicalId (w p : Nat) : Chars :=
  zfill 2 (natChars w) ++ zfill 3 (natChars p)

/-- A dataframe cell as produced by the CSV reader: null, an integer, a decimal
number (`cdec m e` denotes `m / 10 ^ e`, the way a float like `40.0` is read
from text), or a string. -/
inductive Cell where
  | null
  | cint (n : Int)
  | cdec (m : Int) (e : Nat)
  | cstr (s : Chars)
deriving DecidableEq, Repr

/-- Decimal digit characters of an integer (Python `str(int)`). -/
def intChars (i : Int) : Chars :=
  if i < 0 then '-' :: natChars i.natAbs else natChars i.natAbs

/-- Decimal rendering of `m / 10 ^ e` the way polars casts a float to Utf8
(e.g. `cdec 400 1` renders as "40.0"). -/
def decChars (m : Int) (e : Nat) : Chars :=
  let a := m.natAbs
  let sign : Chars := if m < 0 then ['-'] else []
  if e = 0 then sign ++ natChars a ++ pstr ".0"
  else sign ++ natChars (a / 10 ^ e) ++ '.' :: zfill e (natChars (a % 10 ^ e))

/-- Polars `cast(pl.Utf8)`: null stays null, every other cell becomes its text. -/
def render : Cell → Option Chars
  | .null => none
  | .cint n => some (intChars n)
  | .cdec m e => some (decChars m e)
  | .cstr s => some s

/-- Decimal digit test (regex `\d`). -/
def isDigitChar (c : Char) : Bool := 48 ≤ c.toNat && c.toNat ≤ 57

/-- First match of the regex `(\d+)`: the first maximal run of decimal digits,
`none` when the string holds no digit. -/
def extractDigits : Chars → Option Chars
  | [] => none
  | c :: cs =>
    if isDigitChar c then some (c :: cs.takeWhile isDigitChar)
    else extractDigits cs

/-- First match of the regex `(\d+\.?\d*)`: a digit run, an optional dot, and
any following digits. -/
def extractDecimal : Chars → Option Chars
  | [] => none
  | c :: cs =>
    if isDigitChar c then
      let run := c :: cs.takeWhile isDigitChar
      match cs.dropWhile isDigitChar with
      | '.' :: rs => some (run ++ '.' :: rs.takeWhile isDigitChar)
      | _ => some run
    else extractDecimal cs

/-- Value of an extracted `digits[.digits]` match as an exact rational (the
float the final `cast(pl.Float64)` produces): integer part plus fractional
digits over the matching power of ten. -/
def parseDecimal (s : Chars) : ℚ :=
  let ip := s.takeWhile isDigitChar
  match s.dropWhile isDigitChar with
  | '.' :: fs => mkRat (parseNat ip * 10 ^ fs.length + parseNat fs) (10 ^ fs.length)
  | _ => (parseNat ip : ℚ)

/-- Vote coercion from `import_elections.py` lines 231-248: a null cell is
first replaced by the integer 0; the cell is then cast to text, the first
digit run is extracted (`fill_null("0")` when no digit is found) and cast
back to an integer. -/
def coerceVotes (c : Cell) : Int :=
  let c' := match c with | .null => Cell.cint 0 | x => x
  match render c' with
  | none => 0
  | some s =>
    match extractDigits s with
    | none => 0
    | some d => (parseNat d : Int)

/-- Percent coercion from `import_elections.py` lines 250-265: a null cell is
first replaced by the float 0.0; the cell is then cast to text, the first
`digits[.digits]` match is extracted (`fill_null("0.0")` when none) and cast
to a float. -/
def coercePercent (c : Cell) : ℚ :=
  let c' := match c with | .null => Cell.cdec 0 1 | x => x
  match render c' with
  | none => 0
  | some s =>
    match extractDecimal s with
    | none => 0
    | some d => parseDecimal d

/-- A column name. -/
abbrev CName := Chars

/-- A wide dataframe as read from one CSV file: column names plus rows of
cells aligned with the columns. -/
structure Table where
  cols : List CName
  rows : List (List Cell)
deriving DecidableEq, Repr

/-- Cell of a row under a named column; `.null` when the column is absent
(in the source a missing column is always guarded before access). -/
def getCell (cols : List CName) (row : List Cell) (c : CName) : Cell :=
  match cols.findIdx? (· == c) with
  | some i => row.getD i .null
  | none => .null

/-- Directory-level metadata supplied by the caller of `process_csv_file`. -/
structure Meta where
  year : Option Int
  electionDate : Option Chars
  electionId : Int
  contestId : Int
  contestName : Option Chars
deriving DecidableEq, Repr

/-- One canonical long-form result row, after coercion, with the standard
column set of `import_elections.py` lines 117-131. -/
structure OutRow where
  resultId : Int
  year : Option Int
  electionDate : Option Chars
  electionId : Int
  contestId : Int
  contestName : Option Chars
  precinctId : Cell
  ward : Cell
  precinct : Cell
  totalVotes : Int
  optionName : CName
  optionVotes : Int
  optionPercent : ℚ
deriving DecidableEq, Repr

/-- Decidable equality of fallible results, for evaluating the embedded
operations on concrete inputs. -/
instance exceptDecEq {ε α : Type} [DecidableEq ε] [DecidableEq α] :
    DecidableEq (Except ε α)
  | .error a, .error b =>
    if h : a = b then .isTrue (by rw [h])
    else .isFalse (fun hc => h (by injection hc))
  | .error _, .ok _ => .isFalse (fun hc => Except.noConfusion hc)
  | .ok _, .error _ => .isFalse (fun hc => Except.noConfusion hc)
  | .ok a, .ok b =>
    if h : a = b then .isTrue (by rw [h])
    else .isFalse (fun hc => h (by injection hc))

/-- The distinct ways `process_csv_file` abandons a file and returns `None`. -/
inductive PErr where
  | emptyFrame
  | missingPrecinctId
  | missingColumn
  | unboundTotalCol
  | noOptionColumns
deriving DecidableEq, Repr

/-- One row of the registration/turnout frames built inside the branch at
`import_elections.py` lines 136-161, before any coercion. -/
structure TRow where
  precinctId : Cell
  ward : Cell
  precinct : Cell
  optionName : Chars
  optionVotes : Cell
  optionPercent : Cell
  totalVotes : Cell
deriving DecidableEq, Repr

/-- The concatenated registered/ballots frames the turnout branch constructs
(`import_elections.py` lines 138-161): first all "registered" rows, then all
"ballots" rows, percent null for registered and the turnout measure for
ballots, total null for both. -/
def turnoutPre (t : Table) : List TRow :=
  (t.rows.map fun r =>
    { precinctId := getCell t.cols r (pstr "precinct_id")
      ward := getCell t.cols r (pstr "ward")
      precinct := getCell t.cols r (pstr "precinct")
      optionName := pstr "registered"
      optionVotes := getCell t.cols r (pstr "registered")
      optionPercent := Cell.null
      totalVotes := Cell.null }) ++
  (t.rows.map fun r =>
    { precinctId := getCell t.cols r (pstr "precinct_id")
      ward := getCell t.cols r (pstr "ward")
      precinct := getCell t.cols r (pstr "precinct")
      optionName := pstr "ballots"
      optionVotes := getCell t.cols r (pstr "ballots")
      optionPercent := getCell t.cols r (pstr "turnout")
      totalVotes := Cell.null })

/-- Reserved column names excluded from the voting-option set
(`import_elections.py` line 173). -/
def reservedCols : List CName :=
  [pstr "precinct_id", pstr "ward", pstr "precinct", pstr "total",
   pstr "registered", pstr "ballots", pstr "turnout"]

/-- Voting-option columns: not reserved and not ending with "Percent"
(`import_elections.py` lines 172-174, `str(col).endswith('Percent')`). -/
def optionColsOf (cols : List CName) : List CName :=
  cols.filter (fun c => !(reservedCols.contains c) && !((pstr "Percent").isSuffixOf c))

/-- Name of the percentage sidecar column of an option
(`import_elections.py` line 202, `f"{option} Percent"`). -/
def sidecarName (o : CName) : CName := o ++ pstr " Percent"

/-- One melted long row, before percent association and coercion; `src` is the
source wide row the id-variable cells are read from. -/
structure MRow where
  src : List Cell
  optionName : CName
  optionVotes : Cell
  optionPercent : Cell
deriving DecidableEq, Repr

/-- The percent cell the join at `import_elections.py` lines 208-211 attaches
to a melted row: the sidecar cell of the (unique) source row with the same
precinct_id.  The polars inner join keyed on `precinct_id` is order-preserving
and, for a table whose precinct ids are unique (the reshaper's stated
assumption), associates to each melted row exactly this cell. -/
def lookupPercent (t : Table) (o : CName) (pid : Cell) : Cell :=
  match t.rows.find? (fun r => getCell t.cols r (pstr "precinct_id") == pid) with
  | some r => getCell t.cols r (sidecarName o)
  | none => Cell.null

/-- The per-option percent pass of `import_elections.py` lines 201-214: for
each option column owning a sidecar column, rows of that option get the
precinct-joined sidecar value; other rows keep their current percent. -/
def addPercents (t : Table) (optionCols : List CName) (ms : List MRow) : List MRow :=
  optionCols.foldl (fun acc o =>
    if (sidecarName o) ∈ t.cols then
      acc.map (fun m =>
        if m.optionName == o
        then { m with optionPercent := lookupPercent t o (getCell t.cols m.src (pstr "precinct_id")) }
        else m)
    else acc) ms

/-- Shallow embedding of `process_csv_file` (`import_elections.py` lines
100-295).  The registration/turnout branch builds its two frames and then the
unconditional statement `if total_col:` (line 217) reads a local variable
that is only ever assigned inside the other branch, so the branch always
ends in an UnboundLocalError which the enclosing handler turns into `None`;
this is the `.error .unboundTotalCol` outcome. -/
def process (meta : Meta) (t : Table) : Except PErr (List OutRow) :=
  if t.rows.isEmpty then .error .emptyFrame
  else if ¬ pstr "precinct_id" ∈ t.cols then .error .missingPrecinctId
  else if pstr "registered" ∈ t.cols ∧ pstr "turnout" ∈ t.cols then
    if ¬ (pstr "ward" ∈ t.cols ∧ pstr "precinct" ∈ t.cols ∧ pstr "ballots" ∈ t.cols) then
      .error .missingColumn
    else
      let _registeredAndBallots := turnoutPre t
      .error .unboundTotalCol
  else
    let wardCol := t.cols.contains (pstr "ward")
    let precinctCol := t.cols.contains (pstr "precinct")
    let totalCol := t.cols.contains (pstr "total")
    let optionCols := optionColsOf t.cols
    if optionCols.isEmpty then .error .noOptionColumns
    else
      let melted : List MRow :=
        optionCols.flatMap (fun o => t.rows.map (fun r =>
          { src := r, optionName := o, optionVotes := getCell t.cols r o,
            optionPercent := Cell.null }))
      let withPct := addPercents t optionCols melted
      .ok (withPct.map (fun m =>
        { resultId := -1
          year := meta.year
          electionDate := meta.electionDate
          electionId := meta.electionId
          contestId := meta.contestId
          contestName := meta.contestName
          precinctId := getCell t.cols m.src (pstr "precinct_id")
          ward := if wardCol then getCell t.cols m.src (pstr "ward") else Cell.null
          precinct := if precinctCol then getCell t.cols m.src (pstr "precinct") else Cell.null
          totalVotes := coerceVotes (if totalCol then getCell t.cols m.src (pstr "total") else Cell.null)
          optionName := m.optionName
          optionVotes := coerceVotes m.optionVotes
          optionPercent := coercePercent m.optionPercent }))

/-- The per-directory file loop of `process_directory` (`import_elections.py`
lines 320-345): results of succeeding files are collected and concatenated,
every failing file only bumps the error count. -/
def processDirectory (files : List (Meta × Table)) : List OutRow × Nat :=
  files.foldl (fun acc f =>
    match process f.1 f.2 with
    | .ok rs => if rs.isEmpty then (acc.1, acc.2 + 1) else (acc.1 ++ rs, acc.2)
    | .error _ => (acc.1, acc.2 + 1)) ([], 0)

/-- The option-column set as the spec's own words describe it: columns outside
the reserved set and not matching the "name-space-Percent" suffix pattern.
This definition follows the specification text, for comparison with
`optionColsOf` which follows the source. -/
def specOptionCols (cols : List CName) : List CName :=
  cols.filter (fun c => !(reservedCols.contains c) && !((pstr " Percent").isSuffixOf c))

/-- The persisted results store of `import_elections.py`: the
`election_results` rows plus the `sequence_values` row named "result_id". -/
structure DbState where
  results : List OutRow
  nextValue : Int
deriving DecidableEq, Repr

/-- Shallow embedding of `save_results_to_duckdb` (`import_elections.py`
lines 372-408): an empty batch is returned untouched; otherwise the rows
receive the consecutive ids `next_id, next_id+1, ...`, are appended to the
results table, and the persisted `next_value` is set to `next_id + num_rows`,
which is also the returned next id.  (The final cast/fill_null statements are
identities here because `OutRow` fields are already coerced.) -/
def saveResults (batch : List OutRow) (nextId : Int) (st : DbState) : Int × DbState :=
  if batch.isEmpty then (nextId, st)
  else
    let numRows : Int := batch.length
    let assigned := batch.enum.map (fun p => { p.2 with resultId := nextId + p.1 })
    let nextId' := nextId + numRows
    (nextId', { results := st.results ++ assigned, nextValue := nextId' })

/-- One feature row of a boundary file after its precinct-identifier column is
resolved (`import_geometries.py` lines 32-56): a possibly-degenerate
identifier plus the opaque geometry payload. -/
structure GRow where
  pid : Option Chars
  geom : Chars
deriving DecidableEq, Repr

/-- The empty-identifier mask of `import_geometries.py` line 75
(`isna() | (== "")`). -/
def isEmptyPid : Option Chars → Bool
  | none => true
  | some s => s.isEmpty

/-- The sentinel-identifier mask of `import_geometries.py` line 76
(`== "0" | == "00000"`). -/
def isZeroPid : Option Chars → Bool
  | none => false
  | some s => s == pstr "0" || s == pstr "00000"

/-- Per-row empty mask over the whole table (computed before any repair). -/
def emptyMask (rows : List GRow) : List Bool := rows.map (fun r => isEmptyPid r.pid)

/-- Per-row sentinel mask over the whole table (computed before any repair). -/
def zeroMask (rows : List GRow) : List Bool := rows.map (fun r => isZeroPid r.pid)

/-- Synthetic identifier for a repaired empty identifier:
`f"GEN{next_id:03d}"` (`import_geometries.py` line 86). -/
def genId (k : Nat) : Chars := pstr "GEN" ++ zfill 3 (natChars k)

/-- Synthetic identifier for a repaired sentinel identifier:
`f"ZERO{next_id:03d}"` (`import_geometries.py` line 97). -/
def zeroId (k : Nat) : Chars := pstr "ZERO" ++ zfill 3 (natChars k)

/-- The repair loops of `import_geometries.py` lines 83-98: walk the rows in
order and, wherever the precomputed mask is set, assign the next synthetic
identifier from a counter that starts at `k` and advances once per repaired
row.  Both loops share this shape, differing only in the id constructor. -/
def assignIds (mk : Nat → Chars) : Nat → List Bool → List GRow → List GRow
  | _, _, [] => []
  | _, [], rs => rs
  | k, b :: bs, r :: rs =>
    if b then { r with pid := some (mk k) } :: assignIds mk (k + 1) bs rs
    else r :: assignIds mk k bs rs

/-- `drop_duplicates(subset=["precinct_id"], keep="first")`
(`import_geometries.py` line 121): a row survives iff its identifier has not
been seen on an earlier row. -/
def dedupFirst (seen : List (Option Chars)) : List GRow → List GRow
  | [] => []
  | r :: rs =>
    if seen.contains r.pid then dedupFirst seen rs
    else r :: dedupFirst (r.pid :: seen) rs

/-- The identifiers flagged by `duplicated()` (`import_geometries.py` lines
101-108): the identifier of every row whose value already occurred on an
earlier row, in row order. -/
def dupValues (seen : List (Option Chars)) : List GRow → List (Option Chars)
  | [] => []
  | r :: rs =>
    if seen.contains r.pid then r.pid :: dupValues seen rs
    else dupValues (r.pid :: seen) rs

/-- The degenerate-identifier repair of `import_geometries.py` lines 71-121:
both masks are computed over the table as read, empties then sentinels are
reassigned from two independent counters both starting at 1, and remaining
exact duplicates are dropped keeping the first occurrence, reporting the
dropped count and the first five duplicate values. -/
def repairIds (rows : List GRow) : List GRow × Nat × List (Option Chars) :=
  let e := emptyMask rows
  let z := zeroMask rows
  let r1 := assignIds genId 1 e rows
  let r2 := assignIds zeroId 1 z r1
  let dups := dupValues [] r2
  (dedupFirst [] r2, dups.length, dups.take 5)

/-- Lengths of the non-null identifiers (`.str.len()` skipping NaN). -/
def pidLengths (pids : List (Option Chars)) : List Nat :=
  (pids.filterMap id).map List.length

/-- `.str.isdigit().all()`: every non-null identifier is a nonempty digit
string (Python `"".isdigit()` is false). -/
def allDigitsPids (pids : List (Option Chars)) : Bool :=
  (pids.filterMap id).all (fun s => !s.isEmpty && s.all isDigitChar)

/-- Occurrences of `x` in `l`. -/
def countEq (l : List Nat) (x : Nat) : Nat := (l.filter (· == x)).length

/-- Fuel-driven first-occurrence scan; the fuel only bounds the recursion
depth and is irrelevant once it is at least the list length. -/
def firstOccsAux : Nat → List Nat → List Nat
  | 0, _ => []
  | _, [] => []
  | fuel + 1, x :: xs => x :: firstOccsAux fuel (xs.filter (fun y => !(y == x)))

/-- The distinct values of `l` in order of first occurrence. -/
def firstOccs (l : List Nat) : List Nat := firstOccsAux l.length l

/-- `value_counts().idxmax()`: a value of maximal multiplicity, ties broken
toward the earlier first occurrence. -/
def argmaxCount (l : List Nat) : Option Nat :=
  (firstOccs l).foldl (fun best x =>
    match best with
    | none => some x
    | some b => if countEq l b < countEq l x then some x else best) none

/-- The width normalization of `import_geometries.py` lines 58-69: only when
the minimum identifier length is below 5, every identifier is purely numeric,
and the most frequent length is exactly 4, is the whole column zero-filled
to width 5. -/
def widthNormalize (pids : List (Option Chars)) : List (Option Chars) :=
  match (pidLengths pids).min? with
  | some m =>
    if m < 5 then
      if allDigitsPids pids then
        if argmaxCount (pidLengths pids) = some 4 then
          pids.map (Option.map (zfill 5))
        else pids
      else pids
    else pids
  | none => pids

/-- The direct-identifier priority list of `import_geometries.py` line 34 and
`check_geojson_dups.py` line 24. -/
def possibleFields : List CName :=
  [pstr "precinct_id", pstr "PRECINCT_ID", pstr "precinct", pstr "PRECINCT", pstr "ID"]

/-- The loop at `import_geometries.py` lines 36-39: the first listed field
present among the file's columns. -/
def findPrecinctIdField (cols : List CName) : Option CName :=
  possibleFields.find? (fun f => cols.contains f)

/-- Guard of the ward+precinct combination fallback
(`import_geometries.py` lines 42-46). -/
def combineBranchTaken (cols : List CName) : Bool :=
  (findPrecinctIdField cols).isNone &&
    cols.contains (pstr "ward") && cols.contains (pstr "precinct")

/-- One persisted row of the `precinct_geometries` table. -/
structure PGRow where
  pgid : Int
  pid : Option Chars
  validFromYear : Int
  validToYear : Option Int
  geomWkt : Chars
deriving DecidableEq, Repr

/-- `SELECT COALESCE(MAX(precinct_geometry_id), 0)` over the current table
(`import_geometries.py` lines 124-127). -/
def maxPgid (st : List PGRow) : Int := st.foldl (fun a r => max a r.pgid) 0

/-- Shallow embedding of the store-mutating part of `import_precinct_geojson`
(`import_geometries.py` lines 58-221), after the identifier column has been
resolved (that resolution is `findPrecinctIdField` / `canonicalId`): width
normalization and degenerate-identifier repair run over the frame, the id
block start is read from the CURRENT table maximum (before any delete), the
insert rows are built, every existing row of the same `valid_from_year` is
deleted, and the new rows are appended. -/
def importVintage (rows : List GRow) (vfrom : Int) (vto : Option Int)
    (st : List PGRow) : List PGRow :=
  let pids1 := widthNormalize (rows.map (·.pid))
  let rows1 := (rows.zip pids1).map (fun p => { p.1 with pid := p.2 })
  let fixed := (repairIds rows1).1
  let startId := maxPgid st + 1
  let ins := fixed.enum.map (fun p =>
    PGRow.mk (startId + p.1) p.2.pid vfrom vto p.2.geom)
  let kept := st.filter (fun r => !(r.validFromYear == vfrom))
  kept ++ ins

/-- Projection of a stored boundary row on everything but the surrogate id. -/
def stripId (r : PGRow) : Option Chars × Int × Option Int × Chars :=
  (r.pid, r.validFromYear, r.validToYear, r.geomWkt)

/-- A sample election context. -/
def metaEx : Meta :=
  ⟨some 2020, some (pstr "2020-03-17"), 1, 1, some (pstr "Mayor")⟩

/-- The one-row registration/turnout table of the C1 example: registered=1000,
ballots=400, turnout=40.0 for precinct "01001". -/
def c1Table : Table :=
  ⟨[pstr "precinct_id", pstr "ward", pstr "precinct",
    pstr "registered", pstr "ballots", pstr "turnout"],
   [[Cell.cstr (pstr "01001"), Cell.cint 1, Cell.cint 1,
     Cell.cint 1000, Cell.cint 400, Cell.cdec 400 1]]⟩

/-- The identifier table of the C2 example: ["", "00000", "00000", "01001",
"01001"], with distinct payloads to tell the rows apart. -/
def c2Rows : List GRow :=
  [⟨some (pstr ""), pstr "a"⟩, ⟨some (pstr "00000"), pstr "b"⟩,
   ⟨some (pstr "00000"), pstr "c"⟩, ⟨some (pstr "01001"), pstr "d"⟩,
   ⟨some (pstr "01001"), pstr "e"⟩]

/-- An identifier column with a short purely-numeric value whose modal length
is 5, not 4. -/
def c6CexPids : List (Option Chars) :=
  [some (pstr "123"), some (pstr "01001"), some (pstr "01002")]

/-- An identifier column with modal length 4, the configuration the padding
branch actually fires on. -/
def c6PadPids : List (Option Chars) :=
  [some (pstr "1001"), some (pstr "2002"), some (pstr "01003")]

/-- The one-row options table of the C7 example. -/
def c7Table : Table :=
  ⟨[pstr "precinct_id", pstr "ward", pstr "precinct", pstr "total",
    pstr "Smith", pstr "Jones", pstr "Smith Percent"],
   [[Cell.cstr (pstr "01001"), Cell.cint 1, Cell.cint 1, Cell.cint 100,
     Cell.cint 60, Cell.cint 40, Cell.cdec 600 1]]⟩

/-- The expected Smith output row of the C7 example. -/
def c7SmithRow : OutRow :=
  { resultId := -1, year := some 2020, electionDate := some (pstr "2020-03-17"),
    electionId := 1, contestId := 1, contestName := some (pstr "Mayor"),
    precinctId := Cell.cstr (pstr "01001"), ward := Cell.cint 1,
    precinct := Cell.cint 1, totalVotes := 100, optionName := pstr "Smith",
    optionVotes := 60, optionPercent := 60 }

/-- The expected Jones output row of the C7 example. -/
def c7JonesRow : OutRow :=
  { resultId := -1, year := some 2020, electionDate := some (pstr "2020-03-17"),
    electionId := 1, contestId := 1, contestName := some (pstr "Mayor"),
    precinctId := Cell.cstr (pstr "01001"), ward := Cell.cint 1,
    precinct := Cell.cint 1, totalVotes := 100, optionName := pstr "Jones",
    optionVotes := 40, optionPercent := 0 }

/-- A table whose only non-reserved column name ends in "Percent" without the
space the spec's sidecar pattern requires. -/
def c8CexTable : Table :=
  ⟨[pstr "precinct_id", pstr "TotalPercent"],
   [[Cell.cstr (pstr "01001"), Cell.cint 5]]⟩

/-- A small options table with one genuine option column. -/
def c8OkTable : Table :=
  ⟨[pstr "precinct_id", pstr "Smith"],
   [[Cell.cstr (pstr "01001"), Cell.cint 60]]⟩

/-- The one-feature boundary file of the C5 example. -/
def c5Rows : List GRow := [⟨some (pstr "01001"), pstr "g"⟩]

/-- Two empty-identifier rows, both repaired from the GEN namespace. -/
def c10Rows : List GRow := [⟨some (pstr ""), pstr "a"⟩, ⟨some (pstr ""), pstr "b"⟩]

end GPElection

namespace GPElection

theorem natCharsAux_ne_nil (fuel n : Nat) : natCharsAux fuel n ≠ [] := by
  cases fuel with
  | zero => simp [natCharsAux]
  | succ fuel =>
    rw [natCharsAux]
    split
    · simp
    · simp

theorem natChars_ne_nil (n : Nat) : natChars n ≠ [] := natCharsAux_ne_nil n n

theorem natCharsAux_length_le (k : Nat) :
    ∀ fuel n : Nat, n ≤ fuel → 1 ≤ k → n < 10 ^ k → (natCharsAux fuel n).length ≤ k := by
  induction k with
  | zero => intro fuel n _ h; omega
  | succ k ih =>
    intro fuel n hfuel _ hn
    cases fuel with
    | zero =>
      interval_cases n
      simp [natCharsAux]
    | succ fuel =>
      rw [natCharsAux]
      split
      · simp
      · rename_i h10
        rcases Nat.eq_zero_or_pos k with hk | hk
        · subst hk; omega
        · have hdiv : n / 10 < 10 ^ k := by
            rw [Nat.div_lt_iff_lt_mul (by omega)]
            calc n < 10 ^ (k + 1) := hn
              _ = 10 ^ k * 10 := by ring
          have hf : n / 10 ≤ fuel := by
            have : n / 10 < n := Nat.div_lt_self (by omega) (by omega)
            omega
          have := ih fuel (n / 10) hf hk hdiv
          simp only [List.length_append, List.length_cons, List.length_nil]
          omega

theorem natChars_length_le (k n : Nat) (h1 : 1 ≤ k) (hn : n < 10 ^ k) :
    (natChars n).length ≤ k :=
  natCharsAux_length_le k n n (Nat.le_refl n) h1 hn

theorem zfill_length (w : Nat) (s : Chars) (h : s.length ≤ w) :
    (zfill w s).length = w := by
  simp [zfill]
  omega

theorem digitChar_toNat {n : Nat} (h : n < 10) : (Nat.digitChar n).toNat = 48 + n := by
  interval_cases n <;> decide

theorem parseNat_append (s t : Chars) :
    parseNat (s ++ t) = t.foldl (fun a c => 10 * a + (c.toNat - 48)) (parseNat s) := by
  simp [parseNat, List.foldl_append]

theorem parseNat_zeros (m : Nat) (s : Chars) :
    parseNat (List.replicate m '0' ++ s) = parseNat s := by
  induction m with
  | zero => simp
  | succ m ih =>
    have : List.replicate (m + 1) '0' ++ s = '0' :: (List.replicate m '0' ++ s) := by
      simp [List.replicate_succ]
    rw [this]
    simpa [parseNat] using ih

theorem parseNat_zfill (w : Nat) (s : Chars) : parseNat (zfill w s) = parseNat s := by
  simp [zfill, parseNat_zeros]

theorem parseNat_natCharsAux :
    ∀ fuel n : Nat, n ≤ fuel → parseNat (natCharsAux fuel n) = n := by
  intro fuel
  induction fuel with
  | zero =>
    intro n h
    interval_cases n
    simp [natCharsAux, parseNat]
    decide
  | succ fuel ih =>
    intro n hfuel
    rw [natCharsAux]
    split
    · rename_i h
      simp [parseNat, digitChar_toNat h]
    · rename_i h
      rw [parseNat_append]
      have hf : n / 10 ≤ fuel := by
        have : n / 10 < n := Nat.div_lt_self (by omega) (by omega)
        omega
      have hmod : n % 10 < 10 := Nat.mod_lt _ (by omega)
      simp only [List.foldl_cons, List.foldl_nil, ih (n / 10) hf, digitChar_toNat hmod]
      omega

theorem parseNat_natChars (n : Nat) : parseNat (natChars n) = n :=
  parseNat_natCharsAux n n (Nat.le_refl n)

/-- C4: for every ward w in [0,99] and precinct p in [0,999], the canonical
identifier built from (w, p) has length exactly 5, and the fixed-width
decomposition — first 2 characters as ward, last 3 as precinct — reads
back to (w, p). -/
theorem c4_canonical_id_roundtrip (w p : Nat) (hw : w ≤ 99) (hp : p ≤ 999) :
    (canonicalId w p).length = 5 ∧
    parseNat ((canonicalId w p).take 2) = w ∧
    parseNat ((canonicalId w p).drop 2) = p := by
  have hw' : (natChars w).length ≤ 2 := natChars_length_le 2 w (by omega) (by omega)
  have hp' : (natChars p).length ≤ 3 := natChars_length_le 3 p (by omega) (by omega)
  have l2 : (zfill 2 (natChars w)).length = 2 := zfill_length 2 _ hw'
  have l3 : (zfill 3 (natChars p)).length = 3 := zfill_length 3 _ hp'
  refine ⟨?_, ?_, ?_⟩
  · simp [canonicalId, l2, l3]
  · rw [canonicalId, List.take_left' l2, parseNat_zfill, parseNat_natChars]
  · rw [canonicalId, List.drop_left' l2, parseNat_zfill, parseNat_natChars]

/-- Witness for C4 at ward 7, precinct 15. -/
theorem c4_canonical_id_roundtrip_witness :
    (7 ≤ 99 ∧ 15 ≤ 999) ∧
    ((canonicalId 7 15).length = 5 ∧
     parseNat ((canonicalId 7 15).take 2) = 7 ∧
     parseNat ((canonicalId 7 15).drop 2) = 15) :=
  ⟨⟨by decide, by decide⟩, c4_canonical_id_roundtrip 7 15 (by decide) (by decide)⟩

/-- C1: on the claim's turnout input, `process_csv_file` does construct the
two described rows inside the turnout branch — (registered, 1000, percent
null) and (ballots, 400, percent 40.0), total null on both — but the
function then reads the unassigned local `total_col` and aborts, returning
`None` (zero records) instead of emitting them. -/
theorem c1_turnout_rows_lost_to_unbound_local :
    process metaEx c1Table = .error .unboundTotalCol ∧
    turnoutPre c1Table =
      [⟨Cell.cstr (pstr "01001"), Cell.cint 1, Cell.cint 1, pstr "registered",
        Cell.cint 1000, Cell.null, Cell.null⟩,
       ⟨Cell.cstr (pstr "01001"), Cell.cint 1, Cell.cint 1, pstr "ballots",
        Cell.cint 400, Cell.cdec 400 1, Cell.null⟩] := by
  constructor
  · rfl
  · rfl

/-- C9: the ward+precinct combination fallback of the boundary importer is
unreachable: its guard requires the priority-list lookup to have failed while
a "precinct" column is present, yet "precinct" is itself on the priority
list. -/
theorem c9_combine_branch_unreachable (cols : List CName) :
    combineBranchTaken cols = false := by
  by_cases h : cols.contains (pstr "precinct") = true
  · have hsome : (findPrecinctIdField cols).isSome = true := by
      rw [findPrecinctIdField, List.find?_isSome]
      exact ⟨pstr "precinct", by decide, h⟩
    unfold combineBranchTaken
    rcases Option.isSome_iff_exists.mp hsome with ⟨v, hv⟩
    simp [hv]
  · unfold combineBranchTaken
    simp [Bool.not_eq_true] at h
    simp [h]

/-- C6 counterexample: in the column ["123", "01001", "01002"] the value
"123" is purely numeric and shorter than 5 characters, yet width
normalization leaves the whole column untouched (the modal length is 5, not
4), so the short identifier is not padded. -/
theorem c6_counterexample :
    some (pstr "123") ∈ c6CexPids ∧
    (pstr "123").length < 5 ∧
    (pstr "123").all isDigitChar = true ∧
    widthNormalize c6CexPids = c6CexPids ∧
    some (pstr "123") ∈ widthNormalize c6CexPids ∧
    (pstr "123").length ≠ 5 := by
  decide

/-- C6 (amended): identifiers are zero-padded to width 5 only when the
minimum identifier length is below 5, every identifier in the table is
purely numeric, AND the most frequent identifier length is exactly 4; in
that case the whole column is zero-filled to width 5, which brings every
identifier of length at most 5 to length exactly 5. -/
theorem c6_amended_padding (pids : List (Option Chars)) (m : Nat)
    (h1 : (pidLengths pids).min? = some m) (h2 : m < 5)
    (h3 : allDigitsPids pids = true)
    (h4 : argmaxCount (pidLengths pids) = some 4) :
    widthNormalize pids = pids.map (Option.map (zfill 5)) ∧
    ∀ s, some s ∈ pids → s.length ≤ 5 → (zfill 5 s).length = 5 := by
  constructor
  · simp [widthNormalize, h1, h2, h3, h4]
  · intro s _ hs
    exact zfill_length 5 s hs

/-- Witness for the amended C6 on a column of modal length 4. -/
theorem c6_amended_padding_witness :
    ((pidLengths c6PadPids).min? = some 4 ∧ 4 < 5 ∧
     allDigitsPids c6PadPids = true ∧
     argmaxCount (pidLengths c6PadPids) = some 4) ∧
    (widthNormalize c6PadPids = c6PadPids.map (Option.map (zfill 5)) ∧
     ∀ s, some s ∈ c6PadPids → s.length ≤ 5 → (zfill 5 s).length = 5) :=
  ⟨⟨by decide, by decide, by decide, by decide⟩,
   c6_amended_padding c6PadPids 4 (by decide) (by decide) (by decide) (by decide)⟩

theorem saveResults_spec (b : List OutRow) (st : DbState) :
    (saveResults b st.nextValue st).1 = st.nextValue + b.length ∧
    (saveResults b st.nextValue st).2.nextValue = st.nextValue + b.length ∧
    (saveResults b st.nextValue st).2.results.map (fun r => r.resultId) =
      st.results.map (fun r => r.resultId) ++
        (List.range b.length).map (fun i : Nat => st.nextValue + (i : Int)) := by
  by_cases hb : b.isEmpty = true
  · rw [List.isEmpty_iff] at hb
    subst hb
    simp [saveResults]
  · refine ⟨?_, ?_, ?_⟩
    · simp [saveResults, hb]
    · simp [saveResults, hb]
    · simp only [saveResults, hb, Bool.false_eq_true, if_false]
      rw [List.map_append, List.map_map]
      congr 1
      rw [← List.enum_map_fst b, List.map_map]
      rfl

/-- C3: two consecutive batch appends through `save_results_to_duckdb`
reserve contiguous, non-overlapping id blocks: the second start exceeds the
first by exactly the first batch size, the persisted next_value advances by
exactly the number of rows appended at each step and always equals the
returned next id (so a restart that re-reads it resumes identically), and
the ids appended across both batches are the gap-free increasing range
starting at the original next_value. -/
theorem c3_sequence_allocator (st : DbState) (b1 b2 : List OutRow) :
    (saveResults b1 st.nextValue st).1 = st.nextValue + b1.length ∧
    (saveResults b1 st.nextValue st).2.nextValue = st.nextValue + b1.length ∧
    (saveResults b2 (saveResults b1 st.nextValue st).1
        (saveResults b1 st.nextValue st).2).1 =
      st.nextValue + b1.length + b2.length ∧
    (saveResults b2 (saveResults b1 st.nextValue st).1
        (saveResults b1 st.nextValue st).2).2.nextValue =
      st.nextValue + b1.length + b2.length ∧
    (saveResults b2 (saveResults b1 st.nextValue st).1
        (saveResults b1 st.nextValue st).2).2.results.map (fun r => r.resultId) =
      st.results.map (fun r => r.resultId) ++
        (List.range (b1.length + b2.length)).map
          (fun i : Nat => st.nextValue + (i : Int)) := by
  obtain ⟨h1, h2, h3⟩ := saveResults_spec b1 st
  have h12 : (saveResults b1 st.nextValue st).1 =
      (saveResults b1 st.nextValue st).2.nextValue := h1.trans h2.symm
  obtain ⟨g1, g2, g3⟩ := saveResults_spec b2 (saveResults b1 st.nextValue st).2
  refine ⟨h1, h2, ?_, ?_, ?_⟩
  · rw [h12, g1, h2]
  · rw [h12, g2, h2]
  · rw [h12, g3, h3, h2, List.range_add, List.map_append, List.map_map,
      List.append_assoc]
    congr 2
    refine List.map_congr_left ?_
    intro i _
    simp only [Function.comp_apply]
    push_cast
    ring

theorem dedupFirst_pid_spec :
    ∀ (l : List GRow) (seen : List (Option Chars)),
      ((dedupFirst seen l).map (fun r => r.pid)).Nodup ∧
      ∀ r ∈ dedupFirst seen l, r.pid ∉ seen := by
  intro l
  induction l with
  | nil => intro seen; simp [dedupFirst]
  | cons r rs ih =>
    intro seen
    by_cases h : r.pid ∈ seen
    · simpa [dedupFirst, h] using ih seen
    · have hc : ¬ seen.contains r.pid = true := fun hb => h (List.elem_iff.mp hb)
      obtain ⟨ihn, ihs⟩ := ih (r.pid :: seen)
      rw [dedupFirst, if_neg hc]
      refine ⟨?_, ?_⟩
      · rw [List.map_cons, List.nodup_cons]
        refine ⟨?_, ihn⟩
        intro hmem
        rcases List.mem_map.mp hmem with ⟨a, ha, hpid⟩
        exact (ihs a ha) (by rw [hpid]; exact List.mem_cons_self _ _)
      · intro a ha
        rcases List.mem_cons.mp ha with rfl | ha
        · exact h
        · intro hmem
          exact (ihs a ha) (List.mem_cons_of_mem _ hmem)

/-- C5 counterexample: re-importing the same one-feature vintage onto the
store it just produced yields a store with the same single logical row but a
different surrogate id (2 instead of 1), because the id block start is read
from the table maximum before the old vintage is deleted; so the final
content is not identical to the first run's. -/
theorem c5_counterexample :
    importVintage c5Rows 2010 (some 2013) [] =
      [⟨1, some (pstr "01001"), 2010, some 2013, pstr "g"⟩] ∧
    importVintage c5Rows 2010 (some 2013)
        (importVintage c5Rows 2010 (some 2013) []) =
      [⟨2, some (pstr "01001"), 2010, some 2013, pstr "g"⟩] ∧
    importVintage c5Rows 2010 (some 2013)
        (importVintage c5Rows 2010 (some 2013) [])
      ≠ importVintage c5Rows 2010 (some 2013) [] := by
  decide

/-- C5 (amended): re-running the vintage import with identical arguments
leaves the same number of rows and the same rows up to surrogate ids (the
projection dropping `precinct_geometry_id` is unchanged), and the imported
vintage carries no duplicated precinct identifier; only the surrogate ids
themselves differ between the two runs, since the block start is read from
the current table maximum before the delete. -/
theorem c5_vintage_reimport_mod_ids (rows : List GRow) (vfrom : Int)
    (vto : Option Int) (st : List PGRow) :
    (importVintage rows vfrom vto (importVintage rows vfrom vto st)).length
        = (importVintage rows vfrom vto st).length ∧
    (importVintage rows vfrom vto (importVintage rows vfrom vto st)).map stripId
        = (importVintage rows vfrom vto st).map stripId ∧
    (((importVintage rows vfrom vto st).filter
        (fun r => r.validFromYear == vfrom)).map (fun r => r.pid)).Nodup := by
  have hkept : ∀ s : List PGRow,
      (importVintage rows vfrom vto s).filter (fun r => !(r.validFromYear == vfrom))
        = s.filter (fun r => !(r.validFromYear == vfrom)) := by
    intro s
    unfold importVintage
    rw [List.filter_append, List.filter_filter]
    have h1 : (s.filter fun a => !(a.validFromYear == vfrom) && !(a.validFromYear == vfrom))
        = s.filter (fun r => !(r.validFromYear == vfrom)) := by
      apply List.filter_congr
      intro a _
      rw [Bool.and_self]
    have h2 : ∀ (fx : List GRow) (base : Int),
        (fx.enum.map (fun p => PGRow.mk (base + p.1) p.2.pid vfrom vto p.2.geom)).filter
            (fun r => !(r.validFromYear == vfrom)) = [] := by
      intro fx base
      rw [List.filter_eq_nil_iff]
      intro a ha
      rcases List.mem_map.mp ha with ⟨p, _, rfl⟩
      simp
    rw [h1, h2, List.append_nil]
  have hvint : ∀ s : List PGRow,
      (importVintage rows vfrom vto s).filter (fun r => r.validFromYear == vfrom)
        = (repairIds ((rows.zip (widthNormalize (rows.map (fun r => r.pid)))).map
            (fun p => { p.1 with pid := p.2 }))).1.enum.map
              (fun p => PGRow.mk (maxPgid s + 1 + p.1) p.2.pid vfrom vto p.2.geom) := by
    intro s
    unfold importVintage
    rw [List.filter_append, List.filter_filter]
    have h1 : (s.filter fun a => (a.validFromYear == vfrom) && !(a.validFromYear == vfrom))
        = s.filter (fun _ => false) := by
      apply List.filter_congr
      intro a _
      rw [Bool.and_not_self]
    have h2 : ∀ (fx : List GRow) (base : Int),
        (fx.enum.map (fun p => PGRow.mk (base + p.1) p.2.pid vfrom vto p.2.geom)).filter
            (fun r => r.validFromYear == vfrom)
          = fx.enum.map (fun p => PGRow.mk (base + p.1) p.2.pid vfrom vto p.2.geom) := by
      intro fx base
      rw [List.filter_eq_self]
      intro a ha
      rcases List.mem_map.mp ha with ⟨p, _, rfl⟩
      simp
    rw [h1, h2, List.filter_false, List.nil_append]
  have hstrip : ∀ (fx : List GRow) (base : Int),
      (fx.enum.map (fun p => PGRow.mk (base + p.1) p.2.pid vfrom vto p.2.geom)).map stripId
        = fx.map (fun g => (g.pid, vfrom, vto, g.geom)) := by
    intro fx base
    rw [List.map_map]
    conv_rhs => rw [← List.enum_map_snd fx, List.map_map]
    rfl
  have hself : ∀ s : List PGRow,
      importVintage rows vfrom vto s
        = s.filter (fun r => !(r.validFromYear == vfrom)) ++
          (repairIds ((rows.zip (widthNormalize (rows.map (fun r => r.pid)))).map
            (fun p => { p.1 with pid := p.2 }))).1.enum.map
              (fun p => PGRow.mk (maxPgid s + 1 + p.1) p.2.pid vfrom vto p.2.geom) := by
    intro s
    rfl
  refine ⟨?_, ?_, ?_⟩
  · rw [hself (importVintage rows vfrom vto st), hkept st]
    conv_rhs => rw [hself st]
    simp [List.enum_length]
  · rw [hself (importVintage rows vfrom vto st), hkept st, List.map_append, hstrip]
    conv_rhs => rw [hself st, List.map_append, hstrip]
  · have hpid : ∀ (fx : List GRow) (base : Int),
        ((fx.enum.map (fun p => PGRow.mk (base + p.1) p.2.pid vfrom vto p.2.geom)).map
          (fun r => r.pid)) = fx.map (fun g => g.pid) := by
      intro fx base
      rw [List.map_map]
      conv_rhs => rw [← List.enum_map_snd fx, List.map_map]
      rfl
    rw [hvint st, hpid]
    exact (dedupFirst_pid_spec _ []).1

theorem pstr_zero_chars : pstr "0" = ['0'] := rfl

theorem pstr_sentinel_chars : pstr "00000" = ['0', '0', '0', '0', '0'] := rfl

theorem genId_cons (k : Nat) : genId k = 'G' :: 'E' :: 'N' :: zfill 3 (natChars k) := rfl

theorem zeroId_cons (k : Nat) :
    zeroId k = 'Z' :: 'E' :: 'R' :: 'O' :: zfill 3 (natChars k) := rfl

theorem genId_ne_zeroId (n m : Nat) : genId n ≠ zeroId m := by
  rw [genId_cons, zeroId_cons]
  intro h
  injection h with h1 _
  exact absurd h1 (by decide)

theorem genId_inj (n m : Nat) (h : genId n = genId m) : n = m := by
  rw [genId_cons, genId_cons] at h
  injection h with _ h
  injection h with _ h
  injection h with _ h
  have := congrArg parseNat h
  rwa [parseNat_zfill, parseNat_zfill, parseNat_natChars, parseNat_natChars] at this

theorem zeroId_inj (n m : Nat) (h : zeroId n = zeroId m) : n = m := by
  rw [zeroId_cons, zeroId_cons] at h
  injection h with _ h
  injection h with _ h
  injection h with _ h
  injection h with _ h
  have := congrArg parseNat h
  rwa [parseNat_zfill, parseNat_zfill, parseNat_natChars, parseNat_natChars] at this

theorem genId_not_digits (n : Nat) (s : Chars) (hall : s.all isDigitChar = true) :
    genId n ≠ s := by
  intro h
  rw [← h, genId_cons] at hall
  simp only [List.all_cons, Bool.and_eq_true] at hall
  exact absurd hall.1 (by decide)

theorem zeroId_not_digits (n : Nat) (s : Chars) (hall : s.all isDigitChar = true) :
    zeroId n ≠ s := by
  intro h
  rw [← h, zeroId_cons] at hall
  simp only [List.all_cons, Bool.and_eq_true] at hall
  exact absurd hall.1 (by decide)

theorem isZeroPid_genId (k : Nat) : isZeroPid (some (genId k)) = false := by
  have h1 : (genId k == pstr "0") = false := by
    rw [beq_eq_false_iff_ne, genId_cons, pstr_zero_chars]
    intro h
    injection h with h1 _
    exact absurd h1 (by decide)
  have h2 : (genId k == pstr "00000") = false := by
    rw [beq_eq_false_iff_ne, genId_cons, pstr_sentinel_chars]
    intro h
    injection h with h1 _
    exact absurd h1 (by decide)
  simp [isZeroPid, h1, h2]

theorem isZeroPid_of_empty (p : Option Chars) (h : isEmptyPid p = true) :
    isZeroPid p = false := by
  cases p with
  | none => rfl
  | some s =>
    have hs : s = [] := by simpa [isEmptyPid, List.isEmpty_iff] using h
    subst hs
    rfl

theorem zeroMask_assignGen (rows : List GRow) :
    ∀ k, zeroMask (assignIds genId k (emptyMask rows) rows) = zeroMask rows := by
  induction rows with
  | nil => intro k; rfl
  | cons r rs ih =>
    intro k
    simp only [emptyMask, List.map_cons]
    by_cases hb : isEmptyPid r.pid = true
    · simp only [assignIds, hb, if_true]
      simp [zeroMask, isZeroPid_genId, isZeroPid_of_empty r.pid hb, emptyMask] at ih ⊢
      exact ih (k + 1)
    · simp only [assignIds, hb, if_false]
      simp [zeroMask, emptyMask] at ih ⊢
      exact ih k

theorem dedup_dup_length :
    ∀ (l : List GRow) (seen : List (Option Chars)),
      (dedupFirst seen l).length + (dupValues seen l).length = l.length := by
  intro l
  induction l with
  | nil => intro seen; rfl
  | cons r rs ih =>
    intro seen
    by_cases h : r.pid ∈ seen
    · simp [dedupFirst, dupValues, h]
      have := ih seen
      omega
    · simp [dedupFirst, dupValues, h]
      have := ih (r.pid :: seen)
      omega

theorem assignIds_length (mk : Nat → Chars) :
    ∀ (rows : List GRow) (bs : List Bool) (k : Nat),
      (assignIds mk k bs rows).length = rows.length := by
  intro rows
  induction rows with
  | nil => intro bs k; cases bs <;> rfl
  | cons r rs ih =>
    intro bs k
    cases bs with
    | nil => rfl
    | cons b bs =>
      cases b
      · simp [assignIds, ih]
      · simp [assignIds, ih]

/-- C2: identifier repair is the sequential three-step pipeline the spec
describes — empties repaired first, then sentinels over the resulting table,
then first-occurrence-wins dedup with dropped count and sample values — and
on the example table ["", "00000", "00000", "01001", "01001"] it yields
GEN001, ZERO001, ZERO002 (all distinct) and exactly the first "01001" row,
dropping one duplicate and reporting it. -/
theorem c2_identifier_repair :
    (∀ rows : List GRow,
      repairIds rows =
        (let r1 := assignIds genId 1 (emptyMask rows) rows
         let r2 := assignIds zeroId 1 (zeroMask r1) r1
         (dedupFirst [] r2, (dupValues [] r2).length, (dupValues [] r2).take 5))) ∧
    (∀ rows : List GRow,
      (repairIds rows).1.length + (repairIds rows).2.1 = rows.length) ∧
    (∀ rows : List GRow, ((repairIds rows).1.map (fun r => r.pid)).Nodup) ∧
    repairIds c2Rows =
      ([⟨some (genId 1), pstr "a"⟩, ⟨some (zeroId 1), pstr "b"⟩,
        ⟨some (zeroId 2), pstr "c"⟩, ⟨some (pstr "01001"), pstr "d"⟩],
       1, [some (pstr "01001")]) ∧
    genId 1 ≠ zeroId 1 ∧ genId 1 ≠ zeroId 2 ∧ zeroId 1 ≠ zeroId 2 := by
  refine ⟨?_, ?_, ?_, by decide, by decide, by decide, by decide⟩
  · intro rows
    simp only [repairIds, zeroMask_assignGen]
  · intro rows
    simp only [repairIds]
    rw [dedup_dup_length, assignIds_length, assignIds_length]
  · intro rows
    simp only [repairIds]
    exact (dedupFirst_pid_spec _ []).1

theorem assignIds_get?_true (mk : Nat → Chars) :
    ∀ (rows : List GRow) (bs : List Bool) (k i : Nat) (r : GRow),
      bs.get? i = some true →
      rows.get? i = some r →
      (assignIds mk k bs rows).get? i
        = some { r with pid := some (mk (k + ((bs.take i).count true))) } := by
  intro rows
  induction rows with
  | nil =>
    intro bs k i r _ hr
    simp at hr
  | cons r0 rs ih =>
    intro bs k i r hb hr
    cases bs with
    | nil => simp at hb
    | cons b bs' =>
      cases i with
      | zero =>
        simp only [List.get?_cons_zero, Option.some.injEq] at hb hr
        subst hb
        subst hr
        simp [assignIds]
      | succ i =>
        simp only [List.get?_cons_succ] at hb hr
        cases b with
        | false =>
          have hstep : assignIds mk k (false :: bs') (r0 :: rs)
              = r0 :: assignIds mk k bs' rs := rfl
          have hc : ((false :: bs').take (i + 1)).count true
              = (bs'.take i).count true := by
            rw [List.take_succ_cons]
            simp [List.count_cons]
          rw [hstep, List.get?_cons_succ, ih bs' k i r hb hr, hc]
        | true =>
          have hstep : assignIds mk k (true :: bs') (r0 :: rs)
              = { r0 with pid := some (mk k) } :: assignIds mk (k + 1) bs' rs := rfl
          have hc : k + (((true :: bs').take (i + 1)).count true)
              = (k + 1) + (bs'.take i).count true := by
            rw [List.take_succ_cons]
            simp [List.count_cons]
            omega
          rw [hstep, List.get?_cons_succ, ih bs' (k + 1) i r hb hr, hc]

theorem count_take_lt (bs : List Bool) (i j : Nat) (hij : i < j)
    (hbi : bs.get? i = some true) :
    (bs.take i).count true < (bs.take j).count true := by
  have hbi' : bs[i]? = some true := by
    rw [← List.get?_eq_getElem?]
    exact hbi
  have hstep : (bs.take (i + 1)).count true = (bs.take i).count true + 1 := by
    rw [List.take_succ, hbi']
    simp
  have hmono : (bs.take (i + 1)).count true ≤ (bs.take j).count true := by
    have hj : j = (i + 1) + (j - (i + 1)) := by omega
    conv_rhs => rw [hj, List.take_add]
    rw [List.count_append]
    exact Nat.le_add_right _ _
  omega

theorem assignIds_pid_some (mk : Nat → Chars) (rows : List GRow) (bs : List Bool)
    (k i : Nat) (ri : GRow) (hbi : bs.get? i = some true)
    (hai : (assignIds mk k bs rows).get? i = some ri) :
    ∃ c, ri.pid = some (mk c) := by
  have hlen : i < rows.length := by
    by_contra hge
    have : (assignIds mk k bs rows).get? i = none := by
      rw [List.get?_eq_none, assignIds_length]
      omega
    rw [this] at hai
    exact Option.noConfusion hai
  obtain ⟨r, hr⟩ : ∃ r, rows.get? i = some r := by
    cases hx : rows.get? i with
    | none =>
      rw [List.get?_eq_none] at hx
      omega
    | some r => exact ⟨r, rfl⟩
  rw [assignIds_get?_true mk rows bs k i r hbi hr] at hai
  injection hai with hai
  exact ⟨k + (bs.take i).count true, by rw [← hai]⟩

/-- C10: synthetic identifiers are disjoint from real canonical identifiers
and from each other: the two namespaces never coincide, neither ever equals
an all-digit string (in particular no 5-digit canonical identifier), each
namespace's constructor is injective, every identifier a repair loop assigns
at a masked position comes from its constructor, and one loop never assigns
the same value at two distinct masked positions. -/
theorem c10_synthetic_id_disjointness :
    (∀ n m : Nat, genId n ≠ zeroId m) ∧
    (∀ (n : Nat) (s : Chars), s.all isDigitChar = true →
      genId n ≠ s ∧ zeroId n ≠ s) ∧
    (∀ n m : Nat, genId n = genId m → n = m) ∧
    (∀ n m : Nat, zeroId n = zeroId m → n = m) ∧
    (∀ (mk : Nat → Chars) (rows : List GRow) (bs : List Bool) (k i : Nat)
        (ri : GRow),
      bs.get? i = some true →
      (assignIds mk k bs rows).get? i = some ri →
      ∃ c, ri.pid = some (mk c)) ∧
    (∀ (mk : Nat → Chars), (∀ a b : Nat, mk a = mk b → a = b) →
      ∀ (rows : List GRow) (bs : List Bool) (k i j : Nat) (ri rj : GRow),
        i < j →
        bs.get? i = some true → bs.get? j = some true →
        (assignIds mk k bs rows).get? i = some ri →
        (assignIds mk k bs rows).get? j = some rj →
        ri.pid ≠ rj.pid) := by
  refine ⟨genId_ne_zeroId,
    fun n s hall => ⟨genId_not_digits n s hall, zeroId_not_digits n s hall⟩,
    genId_inj, zeroId_inj, assignIds_pid_some, ?_⟩
  intro mk hmk rows bs k i j ri rj hij hbi hbj hai haj
  have hleni : i < rows.length := by
    by_contra hge
    have : (assignIds mk k bs rows).get? i = none := by
      rw [List.get?_eq_none, assignIds_length]
      omega
    rw [this] at hai
    exact Option.noConfusion hai
  have hlenj : j < rows.length := by
    by_contra hge
    have : (assignIds mk k bs rows).get? j = none := by
      rw [List.get?_eq_none, assignIds_length]
      omega
    rw [this] at haj
    exact Option.noConfusion haj
  obtain ⟨a, ha⟩ : ∃ a, rows.get? i = some a := by
    cases hx : rows.get? i with
    | none => rw [List.get?_eq_none] at hx; omega
    | some a => exact ⟨a, rfl⟩
  obtain ⟨b, hb2⟩ : ∃ b, rows.get? j = some b := by
    cases hx : rows.get? j with
    | none => rw [List.get?_eq_none] at hx; omega
    | some b => exact ⟨b, rfl⟩
  rw [assignIds_get?_true mk rows bs k i a hbi ha] at hai
  rw [assignIds_get?_true mk rows bs k j b hbj hb2] at haj
  injection hai with hai
  injection haj with haj
  rw [← hai, ← haj]
  simp only [Option.some.injEq, ne_eq]
  intro heq
  have := hmk _ _ heq
  have hlt := count_take_lt bs i j hij hbi
  omega

/-- Witness for C10: on a two-row table of empty identifiers the GEN loop
assigns GEN001 and GEN002, which differ. -/
theorem c10_synthetic_id_disjointness_witness :
    ((emptyMask c10Rows).get? 0 = some true ∧
     (emptyMask c10Rows).get? 1 = some true ∧
     (assignIds genId 1 (emptyMask c10Rows) c10Rows).get? 0
        = some ⟨some (genId 1), pstr "a"⟩ ∧
     (assignIds genId 1 (emptyMask c10Rows) c10Rows).get? 1
        = some ⟨some (genId 2), pstr "b"⟩) ∧
    (GRow.mk (some (genId 1)) (pstr "a")).pid
      ≠ (GRow.mk (some (genId 2)) (pstr "b")).pid :=
  ⟨⟨by decide, by decide, by decide, by decide⟩,
   c10_synthetic_id_disjointness.2.2.2.2.2 genId
     (fun a b h => c10_synthetic_id_disjointness.2.2.1 a b h)
     c10Rows (emptyMask c10Rows) 1 0 1
     ⟨some (genId 1), pstr "a"⟩ ⟨some (genId 2), pstr "b"⟩
     (by decide) (by decide) (by decide) (by decide) (by decide)⟩

/-- C8 counterexample: the table with columns [precinct_id, "TotalPercent"]
has a non-empty option-column set under the spec's "name-space-Percent"
suffix pattern, yet the source's `endswith('Percent')` test excludes the
column and the file is rejected with the no-option-columns failure. -/
theorem c8_counterexample :
    specOptionCols c8CexTable.cols = [pstr "TotalPercent"] ∧
    specOptionCols c8CexTable.cols ≠ [] ∧
    process metaEx c8CexTable = .error .noOptionColumns := by
  refine ⟨by decide, by decide, ?_⟩
  rfl

/-- C8 (amended): for a non-empty table with a precinct_id column that is
classified as options, the file is rejected with the no-option-columns
failure exactly when the source's option set — columns outside the reserved
set whose names do not END with "Percent" (space or not) — is empty; and any
per-file failure only bumps the directory error count, leaving the other
files' results untouched. -/
theorem c8_amended_rejection (meta : Meta) (t : Table)
    (h1 : t.rows.isEmpty = false)
    (h2 : pstr "precinct_id" ∈ t.cols)
    (h3 : ¬ (pstr "registered" ∈ t.cols ∧ pstr "turnout" ∈ t.cols)) :
    (process meta t = .error .noOptionColumns ↔ optionColsOf t.cols = []) ∧
    ∀ (files : List (Meta × Table)) (e : PErr),
      process meta t = .error e →
      processDirectory (files ++ [(meta, t)]) =
        ((processDirectory files).1, (processDirectory files).2 + 1) := by
  constructor
  · simp only [process, h1, Bool.false_eq_true, if_false, h2, not_true, h3]
    by_cases he : (optionColsOf t.cols).isEmpty
    · simp [he, List.isEmpty_iff.mp he]
    · have hne : optionColsOf t.cols ≠ [] := by
        intro hc
        rw [hc] at he
        exact he rfl
      simp [he, hne]
  · intro files e he
    simp only [processDirectory, List.foldl_append, List.foldl_cons, List.foldl_nil, he]

theorem addPercents_eq_map (t : Table) :
    ∀ (ocs : List CName) (ms : List MRow),
      addPercents t ocs ms = ms.map (fun m => ocs.foldl (fun m o =>
        if sidecarName o ∈ t.cols then
          (if m.optionName == o
           then { m with optionPercent :=
                    lookupPercent t o (getCell t.cols m.src (pstr "precinct_id")) }
           else m)
        else m) m) := by
  intro ocs
  induction ocs with
  | nil => intro ms; simp [addPercents]
  | cons o os ih =>
    intro ms
    have hcons : addPercents t (o :: os) ms =
        addPercents t os
          (if sidecarName o ∈ t.cols then
            ms.map (fun m =>
              if m.optionName == o
              then { m with optionPercent :=
                       lookupPercent t o (getCell t.cols m.src (pstr "precinct_id")) }
              else m)
          else ms) := rfl
    rw [hcons]
    by_cases hs : sidecarName o ∈ t.cols
    · rw [if_pos hs, ih, List.map_map]
      refine List.map_congr_left ?_
      intro m _
      simp only [Function.comp_apply, List.foldl_cons, hs, if_pos]
    · rw [if_neg hs, ih]
      refine List.map_congr_left ?_
      intro m _
      simp only [List.foldl_cons, hs, if_neg, if_false]

theorem percent_foldl_eval (t : Table) :
    ∀ (ocs : List CName) (m : MRow),
      ocs.foldl (fun m o =>
        if sidecarName o ∈ t.cols then
          (if m.optionName == o
           then { m with optionPercent :=
                    lookupPercent t o (getCell t.cols m.src (pstr "precinct_id")) }
           else m)
        else m) m =
      if m.optionName ∈ ocs ∧ sidecarName m.optionName ∈ t.cols
      then { m with optionPercent :=
               lookupPercent t m.optionName (getCell t.cols m.src (pstr "precinct_id")) }
      else m := by
  intro ocs
  induction ocs with
  | nil => intro m; simp
  | cons o os ih =>
    intro m
    rw [List.foldl_cons]
    by_cases hname : m.optionName = o
    · subst hname
      by_cases hs : sidecarName m.optionName ∈ t.cols
      · rw [if_pos hs, if_pos (by simp), ih]
        split
        · simp [List.mem_cons, hs]
        · simp [List.mem_cons, hs]
      · rw [if_neg hs, ih]
        simp [hs]
    · have hbeq : (m.optionName == o) = false := by
        simp [hname]
      have hstep : (if sidecarName o ∈ t.cols then
          (if m.optionName == o
           then { m with optionPercent :=
                    lookupPercent t o (getCell t.cols m.src (pstr "precinct_id")) }
           else m)
        else m) = m := by
        by_cases hs : sidecarName o ∈ t.cols
        · rw [if_pos hs, hbeq]
          rfl
        · rw [if_neg hs]
      rw [hstep, ih]
      simp only [List.mem_cons, hname, false_or]

/-- C7: every emitted options row carries, as its percent, the coerced
sidecar value looked up by precinct_id when its option owns a sidecar
column, and the 0.0 default otherwise; on the concrete one-row example the
output is exactly (Smith, 60, 60.0) and (Jones, 40, 0.0). -/
theorem c7_sidecar_percent :
    (∀ (meta : Meta) (t : Table) (out : List OutRow),
      process meta t = .ok out →
      ∀ r ∈ out,
        r.optionPercent =
          if sidecarName r.optionName ∈ t.cols
          then coercePercent (lookupPercent t r.optionName r.precinctId)
          else 0) ∧
    process metaEx c7Table = .ok [c7SmithRow, c7JonesRow] := by
  constructor
  · intro meta t out hok r hr
    by_cases h1 : t.rows.isEmpty = true
    · simp [process, h1] at hok
    · by_cases h2 : pstr "precinct_id" ∈ t.cols
      · by_cases h3 : pstr "registered" ∈ t.cols ∧ pstr "turnout" ∈ t.cols
        · simp only [process, h1, Bool.false_eq_true, if_false, h2,
            not_true] at hok
          rw [if_pos h3] at hok
          split at hok <;> exact Except.noConfusion hok
        · by_cases h5 : (optionColsOf t.cols).isEmpty = true
          · simp [process, h1, h2, h3, h5] at hok
          · simp only [process, h1, Bool.false_eq_true, if_false, h2, not_true,
              h3, h5, Except.ok.injEq] at hok
            rw [← hok] at hr
            rw [addPercents_eq_map, List.map_map] at hr
            rcases List.mem_map.mp hr with ⟨m, hm, rfl⟩
            rcases List.mem_flatMap.mp hm with ⟨o, ho, hmo⟩
            rcases List.mem_map.mp hmo with ⟨row, hrow, rfl⟩
            dsimp only [Function.comp_apply]
            rw [percent_foldl_eval]
            by_cases hs : sidecarName o ∈ t.cols
            · rw [if_pos ⟨ho, hs⟩]
              dsimp only
              rw [if_pos hs]
            · rw [if_neg (fun hc => hs hc.2)]
              dsimp only
              rw [if_neg hs]
              decide
      · simp [process, h1, h2] at hok
  · decide

/-- Witness for C7: the Smith row of the concrete example indeed carries the
precinct-joined sidecar percent. -/
theorem c7_sidecar_percent_witness :
    (process metaEx c7Table = .ok [c7SmithRow, c7JonesRow] ∧
     c7SmithRow ∈ [c7SmithRow, c7JonesRow]) ∧
    c7SmithRow.optionPercent =
      (if sidecarName c7SmithRow.optionName ∈ c7Table.cols
       then coercePercent
              (lookupPercent c7Table c7SmithRow.optionName c7SmithRow.precinctId)
       else 0) :=
  ⟨⟨c7_sidecar_percent.2, by simp⟩,
   c7_sidecar_percent.1 metaEx c7Table [c7SmithRow, c7JonesRow]
     c7_sidecar_percent.2 c7SmithRow (by simp)⟩

/-- Witness for the amended C8 on a table with one genuine option column. -/
theorem c8_amended_rejection_witness :
    (c8OkTable.rows.isEmpty = false ∧ pstr "precinct_id" ∈ c8OkTable.cols ∧
     ¬ (pstr "registered" ∈ c8OkTable.cols ∧ pstr "turnout" ∈ c8OkTable.cols)) ∧
    (process metaEx c8OkTable = .error .noOptionColumns ↔
      optionColsOf c8OkTable.cols = []) :=
  ⟨⟨rfl, by decide, by decide⟩,
   (c8_amended_rejection metaEx c8OkTable rfl (by decide) (by decide)).1⟩

end GPElection
